import Mathlib

/-!
Verification of the Mononoke hook execution subsystem (src/hooks/src/lib.rs).

The Rust code is shallowly embedded: asynchronous futures become values of
the `Except HookError` monad, the hash maps of the manager become
association lists, and the stores become function fields. Hook bodies are
plain Lean functions from a context to `Except HookError HookExecution`.
Machine bytes are `Nat` values below 256.
-/

namespace Hooks

/-- Changeset identifiers are opaque hashable identities; we model them as
natural numbers. -/
abbrev HgChangesetId := Nat

/-- Mirrors `enum ChangedFileType` in the source: the kind of change a file
underwent in a changeset. -/
inductive ChangedFileType where
  | Added
  | Deleted
  | Modified
deriving DecidableEq, Repr

/-- Modelled from the spec: the file type returned alongside file contents by
the content store (`mononoke_types::FileType` is outside the given sources). -/
inductive FileType where
  | Regular
  | Executable
  | Symlink
deriving DecidableEq, Repr

/-- Raw bytes, as in Rust `Bytes` / `Vec<u8>`. -/
abbrev ByteSeq := List Nat

/-- Whether a byte is a UTF-8 continuation byte (`0b10xxxxxx`). -/
def isUtf8Cont (b : Nat) : Bool := 0x80 ≤ b && b < 0xC0

/-- A UTF-8 decoder with the same acceptance behaviour as Rust
`str::from_utf8` / `String::from_utf8`: rejects stray continuation bytes,
truncated sequences, overlong encodings, surrogate code points and code
points above `0x10FFFF`. Returns the decoded character list on success. -/
def utf8Decode : List Nat → Option (List Char)
  | [] => some []
  | b :: rest =>
    if b < 0x80 then
      (utf8Decode rest).map (fun cs => Char.ofNat b :: cs)
    else if b < 0xC0 then
      none
    else if b < 0xE0 then
      match rest with
      | b1 :: rest2 =>
        if isUtf8Cont b1 then
          let cp := (b - 0xC0) * 0x40 + (b1 - 0x80)
          if cp < 0x80 then none
          else (utf8Decode rest2).map (fun cs => Char.ofNat cp :: cs)
        else none
      | [] => none
    else if b < 0xF0 then
      match rest with
      | b1 :: b2 :: rest3 =>
        if isUtf8Cont b1 && isUtf8Cont b2 then
          let cp := (b - 0xE0) * 0x1000 + (b1 - 0x80) * 0x40 + (b2 - 0x80)
          if cp < 0x800 then none
          else if 0xD800 ≤ cp && cp < 0xE000 then none
          else (utf8Decode rest3).map (fun cs => Char.ofNat cp :: cs)
        else none
      | _ => none
    else
      match rest with
      | b1 :: b2 :: b3 :: rest4 =>
        if isUtf8Cont b1 && isUtf8Cont b2 && isUtf8Cont b3 then
          let cp := (b - 0xF0) * 0x40000 + (b1 - 0x80) * 0x1000 +
            (b2 - 0x80) * 0x40 + (b3 - 0x80)
          if cp < 0x10000 then none
          else if 0x10FFFF < cp then none
          else (utf8Decode rest4).map (fun cs => Char.ofNat cp :: cs)
        else none
      | _ => none

/-- UTF-8 encoding of a single character. -/
def charUtf8 (c : Char) : List Nat :=
  let n := c.toNat
  if n < 0x80 then [n]
  else if n < 0x800 then [0xC0 + n / 0x40, 0x80 + n % 0x40]
  else if n < 0x10000 then
    [0xE0 + n / 0x1000, 0x80 + (n / 0x40) % 0x40, 0x80 + n % 0x40]
  else
    [0xF0 + n / 0x40000, 0x80 + (n / 0x1000) % 0x40, 0x80 + (n / 0x40) % 0x40,
      0x80 + n % 0x40]

/-- The UTF-8 byte sequence underlying a Lean string; Rust strings are exactly
their UTF-8 bytes. -/
def strBytes (s : String) : List Nat := s.data.flatMap charUtf8

/-- Rust `String::contains(&str)`: byte-exact substring containment of the
UTF-8 representations, no case folding. -/
def strContainsSub (hay needle : String) : Bool :=
  decide (strBytes needle <:+: strBytes hay)

/-- Mirrors `metaconfig_types::HookBypass` (outside the given sources).
Modelled from the spec: the bypass describes one of
`CommitMessageSubstring(s)` or `PushVar \x7bname, value\x7d`. -/
inductive HookBypass where
  | CommitMessage (bypass_string : String)
  | Pushvar (name : String) (value : String)

/-- Mirrors `metaconfig_types::HookConfig` (outside the given sources).
Modelled from the spec: RuleConfig is an options map together with an
optional bypass; only the bypass is consulted by the engine. -/
structure HookConfig where
  options : List (String × String)
  bypass : Option HookBypass

/-- Push variables: a string-to-bytes mapping carried alongside the push,
modelled as an association list like the Rust `HashMap<String, Bytes>`. -/
abbrev Pushvars := List (String × ByteSeq)

/-- Mirrors `HookManager::is_hook_bypassed`: decides whether a configured
bypass applies given the commit message and the optional push variables. -/
def is_hook_bypassed (bypass : HookBypass) (cs_msg : String)
    (maybe_pushvars : Option Pushvars) : Bool :=
  match bypass with
  | .CommitMessage bypass_string => strContainsSub cs_msg bypass_string
  | .Pushvar name value =>
    match maybe_pushvars with
    | some pushvars =>
      match (List.lookup name pushvars).map utf8Decode with
      | some (some chars) => String.mk chars == value
      | some none => false
      | none => false
    | none => false

/-- The error kinds surfaced by evaluation. `NoSuchHook`, `NoSuchChangeset`
and `NoFileContent` mirror `errors::ErrorKind`; `invalidUtf8` is modelled
from the spec (the decoding failure of `str::from_utf8` on the named field;
the errors module is outside the given sources); `whileExecuting` models the
`with_context` wrapping of a hook body failure; `fillAbort` models the
`panic` branch of the cache filler; `invalidPath` models an `MPath::new`
failure; `bodyFailed` stands for an arbitrary hook body failure. -/
inductive HookError where
  | NoSuchHook (name : String)
  | NoSuchChangeset (id : String)
  | NoFileContent (cs_id : HgChangesetId) (path : String)
  | invalidUtf8 (field : String)
  | whileExecuting (hook_name : String) (cause : HookError)
  | fillAbort (hook_name : String)
  | invalidPath (path : String)
  | bodyFailed (msg : String)
deriving DecidableEq, Repr

/-- Mirrors `struct HookRejectionInfo`: why a hook rejected the changeset. -/
structure HookRejectionInfo where
  description : String
  long_description : String
deriving DecidableEq, Repr

/-- Mirrors `enum HookExecution`: a verdict. -/
inductive HookExecution where
  | Accepted
  | Rejected (info : HookRejectionInfo)
deriving DecidableEq, Repr

/-- The content store: mirrors `InMemoryFileContentStore`, a map from
(changeset id, path) to (file type, bytes), as an association list. The
trait method `get_file_content_for_changeset` is `contentLookup` below. -/
abbrev ContentStore := List ((HgChangesetId × String) × (FileType × ByteSeq))

/-- Mirrors `FileContentStore::get_file_content_for_changeset` on the
in-memory store: an association lookup returning `none` for an absent path. -/
def contentLookup (store : ContentStore) (cs_id : HgChangesetId)
    (path : String) : Option (FileType × ByteSeq) :=
  List.lookup (cs_id, path) store

/-- Mirrors `struct HookFile`: a changed file handed to file hooks. Field
order and names follow the source; `content_store` is the shared store
handle. -/
structure HookFile where
  path : String
  content_store : ContentStore
  changeset_id : HgChangesetId
  ty : ChangedFileType

/-- Mirrors `impl PartialEq for HookFile`: equality looks only at `path`
and `changeset_id`; the change kind and the store handle are ignored. -/
def hookFileEq (a b : HookFile) : Bool :=
  a.path == b.path && a.changeset_id == b.changeset_id

instance : BEq HookFile := ⟨hookFileEq⟩

/-- Mirrors `impl Hash for HookFile`: the token stream fed to the hasher is
the path followed by the changeset id, nothing else. Two values hash alike
exactly when their streams are equal. -/
def hookFileHashStream (f : HookFile) : List (String ⊕ HgChangesetId) :=
  [Sum.inl f.path, Sum.inr f.changeset_id]

/-- Mirrors `enum HookChangesetParents`. -/
inductive HookChangesetParents where
  | None
  | One (p1 : String)
  | Two (p1 : String) (p2 : String)
deriving DecidableEq, Repr

/-- Parents of a raw changeset, as in `mercurial_types::HgParents`. -/
inductive HgParents where
  | None
  | One (p1 : HgChangesetId)
  | Two (p1 : HgChangesetId) (p2 : HgChangesetId)
deriving DecidableEq, Repr

/-- Mirrors `impl From<HgParents> for HookChangesetParents`. -/
def hookParentsOf : HgParents → HookChangesetParents
  | .None => .None
  | .One p1 => .One (toString p1)
  | .Two p1 p2 => .Two (toString p1) (toString p2)

/-- The raw blob changeset returned by the changeset store
(`HgBlobChangeset`): author and comments as raw bytes, plus parents. -/
structure BlobChangeset where
  user : ByteSeq
  comments : ByteSeq
  parents : HgParents

/-- Mirrors `struct HookChangeset`: the decoded, user-friendly view of a
changeset handed to changeset hooks. -/
structure HookChangeset where
  author : String
  files : List HookFile
  comments : String
  parents : HookChangesetParents
  content_store : ContentStore
  changeset_id : HgChangesetId

/-- Mirrors `struct HookContext<T>`. -/
structure HookContext (T : Type) where
  hook_name : String
  repo_name : String
  config : HookConfig
  data : T

/-- A changeset hook body: `Hook<HookChangeset>::run`, with the future
collapsed to an `Except`. -/
abbrev ChangesetHookBody := HookContext HookChangeset → Except HookError HookExecution

/-- A file hook body: `Hook<HookFile>::run`. -/
abbrev FileHookBody := HookContext HookFile → Except HookError HookExecution

/-- Mirrors `struct HookManager`, with the two store trait objects replaced
by their method functions and the hash maps by association lists. The cache
is not state here: in this single-evaluation model `cache.get` runs the
filler (memoization changes when a body runs, never which verdict a call
returns). -/
structure HookManager where
  changeset_hooks : List (String × (ChangesetHookBody × HookConfig))
  file_hooks : List (String × (FileHookBody × HookConfig))
  bookmark_hooks : List (String × List String)
  repo_name : String
  get_changeset_by_changesetid : HgChangesetId → Except HookError BlobChangeset
  get_changed_files : HgChangesetId → Except HookError (List (String × ChangedFileType))
  content_store : ContentStore

/-- Mirrors `struct FileHookExecutionID`. -/
structure FileHookExecutionID where
  cs_id : HgChangesetId
  hook_name : String
  file : HookFile

/-- The derived `PartialEq` of `FileHookExecutionID`: fieldwise, with the
custom `HookFile` equality for the `file` field. -/
def fileHookIdEq (a b : FileHookExecutionID) : Bool :=
  a.cs_id == b.cs_id && a.hook_name == b.hook_name && hookFileEq a.file b.file

instance : BEq FileHookExecutionID := ⟨fileHookIdEq⟩

/-- Mirrors `struct ChangesetHookExecutionID`. -/
structure ChangesetHookExecutionID where
  cs_id : HgChangesetId
  hook_name : String
deriving DecidableEq, Repr

/-- Mirrors `HookManager::filter_bypassed_hooks`: drops every hook whose
configured bypass fires for this commit message and push variables. -/
def filter_bypassed_hooks {T : Type} (hooks : List (String × (T × HookConfig)))
    (commit_msg : String) (maybe_pushvars : Option Pushvars) :
    List (String × T × HookConfig) :=
  hooks.filterMap fun (hook_name, hook, config) =>
    let maybe_bypassed_hook :=
      match config.bypass with
      | some bypass =>
        if is_hook_bypassed bypass commit_msg maybe_pushvars then none
        else some ()
      | none => some ()
    maybe_bypassed_hook.map fun _ => (hook_name, hook, config)

/-- Decoding step of `get_hook_changeset`: `str::from_utf8(...)?` on a raw
byte field, surfacing the spec error `InvalidUtf8(field)` on failure. -/
def decodeField (field : String) (bytes : ByteSeq) : Except HookError String :=
  match utf8Decode bytes with
  | some chars => .ok (String.mk chars)
  | none => .error (.invalidUtf8 field)

/-- Mirrors `HookManager::get_hook_changeset`: fetch the changeset and its
changed-files list from the changeset store, decode author and comments,
and build the `HookChangeset` snapshot with one `HookFile` per changed
file. -/
def get_hook_changeset (mgr : HookManager) (changeset_id : HgChangesetId) :
    Except HookError HookChangeset := do
  let changeset ← mgr.get_changeset_by_changesetid changeset_id
  let changed_files ← mgr.get_changed_files changeset_id
  let author ← decodeField "author" changeset.user
  let comments ← decodeField "comments" changeset.comments
  pure (HookChangeset.mk author
    (changed_files.map fun x => HookFile.mk x.1 mgr.content_store changeset_id x.2)
    comments (hookParentsOf changeset.parents) mgr.content_store changeset_id)

/-- Mirrors `HookManager::run_changeset_hook`: run one body, wrapping any
failure with the while-executing context. -/
def run_changeset_hook (hook : ChangesetHookBody)
    (hook_context : HookContext HookChangeset) :
    Except HookError (String × HookExecution) :=
  match hook hook_context with
  | .ok he => .ok (hook_context.hook_name, he)
  | .error e => .error (.whileExecuting hook_context.hook_name e)

/-- Mirrors `HookManager::run_changeset_hooks_for_changeset`: run every
surviving hook against the snapshot (join of all results; the first failure
in list order propagates). -/
def run_changeset_hooks_for_changeset (repo_name : String)
    (changeset : HookChangeset)
    (hooks : List (String × ChangesetHookBody × HookConfig)) :
    Except HookError (List (String × HookExecution)) :=
  hooks.mapM fun x =>
    run_changeset_hook x.2.1 (HookContext.mk x.1 repo_name x.2.2 changeset)

/-- The name-resolution closure of
`run_changeset_hooks_for_changeset_id`, named so it can be reasoned about:
a registry lookup whose miss is the fatal `NoSuchHook` error. -/
def resolveHookName {γ : Type} (R : List (String × γ)) (hook_name : String) :
    Except HookError (String × γ) :=
  match List.lookup hook_name R with
  | some hook => Except.ok (hook_name, hook)
  | none => Except.error (HookError.NoSuchHook hook_name)

/-- Mirrors `HookManager::run_changeset_hooks_for_changeset_id`: resolve
every name against the changeset registry (a miss is the fatal
`NoSuchHook`), build the snapshot, drop bypassed hooks, run the rest, and
stamp each verdict with its execution id. -/
def run_changeset_hooks_for_changeset_id (mgr : HookManager)
    (changeset_id : HgChangesetId) (hooks : List String)
    (maybe_pushvars : Option Pushvars) :
    Except HookError (List (ChangesetHookExecutionID × HookExecution)) := do
  let resolved ← hooks.mapM (resolveHookName mgr.changeset_hooks)
  let hcs ← get_hook_changeset mgr changeset_id
  let res ← run_changeset_hooks_for_changeset mgr.repo_name hcs
    (filter_bypassed_hooks resolved hcs.comments maybe_pushvars)
  pure (res.map fun x => (ChangesetHookExecutionID.mk changeset_id x.1, x.2))

/-- Mirrors `HookManager::run_changeset_hooks_for_bookmark`: an unbound
bookmark yields the empty verdict list at once; otherwise the bound names
are filtered to those present in the changeset registry and dispatched. -/
def run_changeset_hooks_for_bookmark (mgr : HookManager)
    (changeset_id : HgChangesetId) (bookmark : String)
    (maybe_pushvars : Option Pushvars) :
    Except HookError (List (ChangesetHookExecutionID × HookExecution)) :=
  match List.lookup bookmark mgr.bookmark_hooks with
  | some hooks =>
    run_changeset_hooks_for_changeset_id mgr changeset_id
      (hooks.filter fun name => (List.lookup name mgr.changeset_hooks).isSome)
      maybe_pushvars
  | none => .ok []

/-- Mirrors `HookCacheFiller::fill`: look the rule name up in the (locked)
file-hook registry; on a hit build the file hook context and run the body,
on a miss the Rust code panics — modelled as the `fillAbort` error. The
filler carries the repo name, and the file-hook registry is shared with the
manager. -/
def hookCacheFill (repo_name : String)
    (file_hooks : List (String × (FileHookBody × HookConfig)))
    (key : FileHookExecutionID) : Except HookError HookExecution :=
  match List.lookup key.hook_name file_hooks with
  | some arc_hook =>
    arc_hook.1 (HookContext.mk key.hook_name repo_name arc_hook.2 key.file)
  | none => .error (.fillAbort key.hook_name)

/-- Mirrors `HookManager::run_file_hook`: ask the cache for the verdict of
one key (the cache delegates a miss to the filler; in this one-shot model
every get runs the filler) and wrap failures with the while-executing
context. -/
def run_file_hook (mgr : HookManager) (key : FileHookExecutionID) :
    Except HookError (FileHookExecutionID × HookExecution) :=
  match hookCacheFill mgr.repo_name mgr.file_hooks key with
  | .ok he => .ok (key, he)
  | .error e => .error (.whileExecuting key.hook_name e)

/-- Mirrors `HookManager::run_file_hooks`: one verdict per hook name for a
single file, each keyed by its `FileHookExecutionID`. -/
def run_file_hooks (mgr : HookManager) (cs_id : HgChangesetId)
    (file : HookFile) (hooks : List String) :
    Except HookError (List (FileHookExecutionID × HookExecution)) :=
  hooks.mapM fun hook_name =>
    run_file_hook mgr (FileHookExecutionID.mk cs_id hook_name file)

/-- Mirrors `HookManager::run_file_hooks_for_changeset`: dispatch the hooks
over every Added or Modified file of the snapshot — files whose change kind
is Deleted are skipped — and flatten the per-file verdict lists. -/
def run_file_hooks_for_changeset (mgr : HookManager)
    (changeset_id : HgChangesetId) (changeset : HookChangeset)
    (hooks : List String) :
    Except HookError (List (FileHookExecutionID × HookExecution)) :=
  ((changeset.files.filter fun file =>
    match file.ty with
    | .Added | .Modified => true
    | .Deleted => false).mapM fun file =>
      run_file_hooks mgr changeset_id file hooks).map fun vv => vv.flatten

/-- Mirrors `HookManager::run_file_hooks_for_changeset_id`: build the
snapshot, drop bypassed hooks, keep only the surviving names, and dispatch
over the changeset files. -/
def run_file_hooks_for_changeset_id (mgr : HookManager)
    (changeset_id : HgChangesetId)
    (hooks : List (String × (FileHookBody × HookConfig)))
    (maybe_pushvars : Option Pushvars) :
    Except HookError (List (FileHookExecutionID × HookExecution)) := do
  let hcs ← get_hook_changeset mgr changeset_id
  run_file_hooks_for_changeset mgr changeset_id hcs
    ((filter_bypassed_hooks hooks hcs.comments maybe_pushvars).map fun x => x.1)

/-- Mirrors `HookManager::run_file_hooks_for_bookmark`: an unbound bookmark
yields the empty list immediately; otherwise the bound names are resolved
against the file registry, names that are absent being dropped silently,
and the resolved hooks dispatched. -/
def run_file_hooks_for_bookmark (mgr : HookManager)
    (changeset_id : HgChangesetId) (bookmark : String)
    (maybe_pushvars : Option Pushvars) :
    Except HookError (List (FileHookExecutionID × HookExecution)) :=
  match List.lookup bookmark mgr.bookmark_hooks with
  | some hooks =>
    run_file_hooks_for_changeset_id mgr changeset_id
      (hooks.filterMap fun name =>
        (List.lookup name mgr.file_hooks).map fun hook => (name, hook))
      maybe_pushvars
  | none => .ok []

/-- Minimal model of `MPath::new` (mercurial_types is outside the given
sources). Modelled from the spec: paths are plain strings; the conversion
is fallible and at least the empty path is invalid. -/
def mpathNew (path : String) : Except HookError String :=
  if path.isEmpty then .error (.invalidPath path) else .ok path

/-- Mirrors `HookFile::file_content`: convert the path, consult the content
store, and turn an absent entry into the `NoFileContent` error. -/
def hookFileContent (f : HookFile) : Except HookError ByteSeq := do
  let path ← mpathNew f.path
  match contentLookup f.content_store f.changeset_id path with
  | some (_, bytes) => .ok bytes
  | none => .error (.NoFileContent f.changeset_id path)

/-- Mirrors `HookFile::file_type`: like `file_content` but projecting the
file type. -/
def hookFileType (f : HookFile) : Except HookError FileType := do
  let path ← mpathNew f.path
  match contentLookup f.content_store f.changeset_id path with
  | some (file_type, _) => .ok file_type
  | none => .error (.NoFileContent f.changeset_id path)

/-- Mirrors `HookFile::len`: the byte length of the file content. -/
def hookFileLen (f : HookFile) : Except HookError Nat :=
  (hookFileContent f).map fun bytes => bytes.length

/-- Mirrors `HookFile::contains_string`: decode the content as UTF-8 (a
failure is an error) and test substring containment. -/
def hookFileContainsString (f : HookFile) (data : String) :
    Except HookError Bool := do
  let bytes ← hookFileContent f
  match utf8Decode bytes with
  | some chars => .ok (strContainsSub (String.mk chars) data)
  | none => .error (.invalidUtf8 "content")

/-- Mirrors `HookChangeset::file_content`: convert the path and consult the
content store; an absent path yields `none`, not an error. -/
def hookChangesetFileContent (hcs : HookChangeset) (path : String) :
    Except HookError (Option ByteSeq) := do
  let p ← mpathNew path
  .ok ((contentLookup hcs.content_store hcs.changeset_id p).map
    fun (_, bytes) => bytes)

/-- Modelled from the spec: the asyncmemo weight of a string, a size
estimator of the stored bytes (the asyncmemo crate is outside the given
sources); we estimate a string by its UTF-8 byte length. -/
def stringWeight (s : String) : Nat := (strBytes s).length

/-- Modelled from the spec: the asyncmemo weight of a changeset id — an
opaque 20-byte hash identity, so its size estimate is the hash width. -/
def changesetIdWeight : Nat := 20

/-- Modelled from the spec: the `mem::size_of` overhead of the
`HookExecution` enum (a fixed positive constant; its exact value is a
compile-time Rust constant). -/
def sizeOfHookExecution : Nat := 56

/-- Modelled from the spec: the `mem::size_of` overhead of
`HookRejectionInfo`. -/
def sizeOfHookRejectionInfo : Nat := 48

/-- Mirrors `impl Weight for HookFile`: path weight plus changeset id
weight. -/
def hookFileWeight (f : HookFile) : Nat :=
  stringWeight f.path + changesetIdWeight

/-- Mirrors `impl Weight for FileHookExecutionID`: cs id weight plus hook
name weight plus file weight. -/
def fileHookExecutionIdWeight (k : FileHookExecutionID) : Nat :=
  changesetIdWeight + stringWeight k.hook_name + hookFileWeight k.file

/-- Mirrors `impl Weight for HookRejectionInfo`. -/
def hookRejectionInfoWeight (info : HookRejectionInfo) : Nat :=
  sizeOfHookRejectionInfo + stringWeight info.description +
    stringWeight info.long_description

/-- Mirrors `impl Weight for HookExecution`. -/
def hookExecutionWeight : HookExecution → Nat
  | .Accepted => sizeOfHookExecution
  | .Rejected info => sizeOfHookExecution + hookRejectionInfoWeight info

/-- The spec reading of the bypass predicate, written from the spec words:
`CommitMessageSubstring(s)` is true iff the commit message contains `s` as a
byte-exact substring; `PushVar` is true iff the push variables are present,
contain the name, and the bytes there decode as UTF-8 equal to the value. -/
def bypassSpec (bypass : HookBypass) (commit_msg : String)
    (push_vars : Option Pushvars) : Prop :=
  match bypass with
  | .CommitMessage s => strBytes s <:+: strBytes commit_msg
  | .Pushvar name value =>
    ∃ pv bytes, push_vars = some pv ∧ List.lookup name pv = some bytes ∧
      utf8Decode bytes = some value.data

/-- The changeset rules obtained by resolving a binding list against the
changeset registry, dropping unresolved names. -/
def resolvedChangesetHooks (mgr : HookManager) (bound : List String) :
    List (String × (ChangesetHookBody × HookConfig)) :=
  bound.filterMap fun name =>
    (List.lookup name mgr.changeset_hooks).map fun hook => (name, hook)

/-- The surviving changeset rules of an evaluation: bound, registered and
not bypassed. -/
def survivingChangesetHooks (mgr : HookManager) (bound : List String)
    (comments : String) (maybe_pushvars : Option Pushvars) :
    List (String × ChangesetHookBody × HookConfig) :=
  filter_bypassed_hooks (resolvedChangesetHooks mgr bound) comments maybe_pushvars

/-- The file rules obtained by resolving a binding list against the file
registry, dropping unresolved names (the silent legacy behaviour). -/
def resolvedFileHooks (mgr : HookManager) (bound : List String) :
    List (String × (FileHookBody × HookConfig)) :=
  bound.filterMap fun name =>
    (List.lookup name mgr.file_hooks).map fun hook => (name, hook)

/-- The names of the surviving file rules: bound, registered and not
bypassed. -/
def survivingFileHookNames (mgr : HookManager) (bound : List String)
    (comments : String) (maybe_pushvars : Option Pushvars) : List String :=
  (filter_bypassed_hooks (resolvedFileHooks mgr bound) comments maybe_pushvars).map
    fun x => x.1

/-- The verdict list produced by a file evaluation once every body has
succeeded: one entry per (surviving rule name × non-deleted file) pair, in
dispatch order. -/
def fileVerdictList (cs : HgChangesetId) (names : List String)
    (files : List HookFile) (execOf : String → HookFile → HookExecution) :
    List (FileHookExecutionID × HookExecution) :=
  (files.filter fun file =>
    match file.ty with
    | .Added | .Modified => true
    | .Deleted => false).flatMap fun file =>
      names.map fun n => (FileHookExecutionID.mk cs n file, execOf n file)

/-- A changeset hook body that accepts everything. -/
def csBodyAccept : ChangesetHookBody := fun _ => .ok .Accepted

/-- A file hook body that accepts everything. -/
def fileBodyAccept : FileHookBody := fun _ => .ok .Accepted

/-- An empty hook configuration: no options, no bypass. -/
def cfgEmpty : HookConfig := ⟨[], none⟩

/-- A well-formed raw changeset: author `alice`, message `hello`. -/
def blobA : BlobChangeset := ⟨strBytes "alice", strBytes "hello", .None⟩

/-- A raw changeset whose author bytes are not valid UTF-8. -/
def blobBad : BlobChangeset := ⟨[0xFF], strBytes "hi", .None⟩

/-- Fixture manager: one registered changeset hook `exists` and the bookmark
`main` bound to `exists` and to the unregistered name `ghost`; changeset 7
exists with no changed files. -/
def mgr0 : HookManager :=
  { changeset_hooks := [("exists", (csBodyAccept, cfgEmpty))]
    file_hooks := []
    bookmark_hooks := [("main", ["exists", "ghost"])]
    repo_name := "repo"
    get_changeset_by_changesetid := fun cs =>
      if cs = 7 then .ok blobA else .error (.NoSuchChangeset (toString cs))
    get_changed_files := fun cs =>
      if cs = 7 then .ok [] else .error (.NoSuchChangeset (toString cs))
    content_store := [] }

/-- The snapshot that `mgr0` builds for changeset 7. -/
def hcs0 : HookChangeset := ⟨"alice", [], "hello", .None, [], 7⟩

/-- Fixture manager: one registered file hook `no-secrets`, the bookmark
`main` bound to it, and changeset 7 with an added, a modified and a deleted
file. -/
def mgr1 : HookManager :=
  { changeset_hooks := []
    file_hooks := [("no-secrets", (fileBodyAccept, cfgEmpty))]
    bookmark_hooks := [("main", ["no-secrets"])]
    repo_name := "repo"
    get_changeset_by_changesetid := fun cs =>
      if cs = 7 then .ok blobA else .error (.NoSuchChangeset (toString cs))
    get_changed_files := fun cs =>
      if cs = 7 then
        .ok [("a.txt", .Added), ("b.txt", .Modified), ("c.txt", .Deleted)]
      else .error (.NoSuchChangeset (toString cs))
    content_store := [] }

/-- The snapshot that `mgr1` builds for changeset 7. -/
def hcs1 : HookChangeset :=
  ⟨"alice",
    [⟨"a.txt", [], 7, .Added⟩, ⟨"b.txt", [], 7, .Modified⟩,
      ⟨"c.txt", [], 7, .Deleted⟩],
    "hello", .None, [], 7⟩

/-- Fixture manager: the bookmark `main` is bound (to nothing) and
changeset 9 has non-UTF-8 author bytes. -/
def mgr2 : HookManager :=
  { changeset_hooks := [("exists", (csBodyAccept, cfgEmpty))]
    file_hooks := [("no-secrets", (fileBodyAccept, cfgEmpty))]
    bookmark_hooks := [("main", [])]
    repo_name := "repo"
    get_changeset_by_changesetid := fun cs =>
      if cs = 9 then .ok blobBad else .error (.NoSuchChangeset (toString cs))
    get_changed_files := fun cs =>
      if cs = 9 then .ok [] else .error (.NoSuchChangeset (toString cs))
    content_store := [] }

/-! Helper lemmas about the `Except` monad and the list combinators used by
the evaluation pipeline. -/

theorem bindE_ok {α β : Type} (a : α) (f : α → Except HookError β) :
    (Except.ok a >>= f) = f a := rfl

theorem bindE_err {α β : Type} (e : HookError) (f : α → Except HookError β) :
    ((Except.error e : Except HookError α) >>= f) = Except.error e := rfl

theorem mapM_ok_of_forall {α β : Type} (f : α → Except HookError β) (g : α → β)
    (l : List α) (h : ∀ a ∈ l, f a = .ok (g a)) :
    l.mapM f = .ok (l.map g) := by
  induction l with
  | nil => rfl
  | cons a t ih =>
    rw [List.mapM_cons, h a (List.mem_cons_self a t),
      ih fun x hx => h x (List.mem_cons_of_mem a hx)]
    rfl

theorem resolveM_filtered {γ : Type} (R : List (String × γ)) (bound : List String) :
    (bound.filter fun name => (List.lookup name R).isSome).mapM (resolveHookName R) =
      Except.ok (bound.filterMap fun name =>
        (List.lookup name R).map fun hook => (name, hook)) := by
  induction bound with
  | nil => rfl
  | cons n t ih =>
    cases h : List.lookup n R with
    | none => simpa [List.filter_cons, h, List.filterMap_cons] using ih
    | some hk =>
      simp only [List.filter_cons, h, Option.isSome_some, if_pos, List.mapM_cons,
        List.filterMap_cons, Option.map_some]
      rw [show resolveHookName R n = Except.ok (n, hk) by
        unfold resolveHookName; rw [h], ih]
      rfl

theorem resolveM_err {γ : Type} (R : List (String × γ)) (names : List String)
    (h : ∃ n ∈ names, List.lookup n R = none) :
    ∃ m ∈ names, List.lookup m R = none ∧
      names.mapM (resolveHookName R) =
        (Except.error (HookError.NoSuchHook m) : Except HookError (List (String × γ))) := by
  induction names with
  | nil => simp at h
  | cons n t ih =>
    cases hn : List.lookup n R with
    | none =>
      refine ⟨n, List.mem_cons_self n t, hn, ?_⟩
      rw [List.mapM_cons]
      rw [show resolveHookName R n = Except.error (HookError.NoSuchHook n) by
        unfold resolveHookName; rw [hn], bindE_err]
    | some hk =>
      obtain ⟨m, hm, hmnone⟩ := h
      have hmt : m ∈ t := by
        rcases List.mem_cons.mp hm with rfl | hmt
        · rw [hn] at hmnone; cases hmnone
        · exact hmt
      obtain ⟨m2, hm2, hm2none, hmapm⟩ := ih ⟨m, hmt, hmnone⟩
      refine ⟨m2, List.mem_cons_of_mem n hm2, hm2none, ?_⟩
      rw [List.mapM_cons]
      rw [show resolveHookName R n = Except.ok (n, hk) by
        unfold resolveHookName; rw [hn], bindE_ok, hmapm, bindE_err]

theorem run_changeset_bookmark_eq (mgr : HookManager) (cs : HgChangesetId)
    (bm : String) (mp : Option Pushvars) (bound : List String)
    (hb : List.lookup bm mgr.bookmark_hooks = some bound) :
    run_changeset_hooks_for_bookmark mgr cs bm mp =
      run_changeset_hooks_for_changeset_id mgr cs
        (bound.filter fun name => (List.lookup name mgr.changeset_hooks).isSome)
        mp := by
  unfold run_changeset_hooks_for_bookmark
  rw [hb]

theorem run_file_bookmark_eq (mgr : HookManager) (cs : HgChangesetId)
    (bm : String) (mp : Option Pushvars) (bound : List String)
    (hb : List.lookup bm mgr.bookmark_hooks = some bound) :
    run_file_hooks_for_bookmark mgr cs bm mp =
      run_file_hooks_for_changeset_id mgr cs
        (bound.filterMap fun name =>
          (List.lookup name mgr.file_hooks).map fun hook => (name, hook))
        mp := by
  unfold run_file_hooks_for_bookmark
  rw [hb]

theorem filterMap_guard_sublist {α : Type} (F : α → Option α)
    (hF : ∀ x, F x = none ∨ F x = some x) (l : List α) :
    (l.filterMap F).Sublist l := by
  induction l with
  | nil => simp
  | cons a t ih =>
    rw [List.filterMap_cons]
    rcases hF a with h | h
    · rw [h]; exact ih.trans (List.sublist_cons_self a t)
    · rw [h]; exact ih.cons₂ a

theorem filter_bypassed_sublist {T : Type}
    (hooks : List (String × (T × HookConfig))) (commit_msg : String)
    (maybe_pushvars : Option Pushvars) :
    (filter_bypassed_hooks hooks commit_msg maybe_pushvars).Sublist
      (hooks.map fun x => (x.1, x.2.1, x.2.2)) := by
  unfold filter_bypassed_hooks
  have h := filterMap_guard_sublist
    (fun (x : String × T × HookConfig) =>
      (match x.2.2.bypass with
        | some bypass =>
          if is_hook_bypassed bypass commit_msg maybe_pushvars then none
          else some ()
        | none => some ()).map fun _ => x)
    (by
      intro x
      cases hb : x.2.2.bypass with
      | none => right; simp [hb]
      | some bypass =>
        by_cases hby : is_hook_bypassed bypass commit_msg maybe_pushvars
        · left; simp [hb, hby]
        · right; simp [hb, hby])
    (hooks.map fun x => (x.1, x.2.1, x.2.2))
  rw [List.filterMap_map] at h
  exact h

theorem filter_bypassed_fst_sublist {T : Type}
    (hooks : List (String × (T × HookConfig))) (commit_msg : String)
    (maybe_pushvars : Option Pushvars) :
    ((filter_bypassed_hooks hooks commit_msg maybe_pushvars).map fun x => x.1).Sublist
      (hooks.map fun x => x.1) := by
  have h := (filter_bypassed_sublist hooks commit_msg maybe_pushvars).map
    (fun x => x.1)
  rw [List.map_map] at h
  exact h

theorem resolved_fst_sublist {γ : Type} (R : List (String × γ)) (bound : List String) :
    ((bound.filterMap fun name =>
      (List.lookup name R).map fun hook => (name, hook)).map fun x => x.1).Sublist bound := by
  induction bound with
  | nil => exact List.Sublist.refl _
  | cons n t ih =>
    rw [List.filterMap_cons]
    cases h : List.lookup n R with
    | none => exact ih.trans (List.sublist_cons_self n t)
    | some hk => simpa using ih.cons₂ n

theorem countP_cross (cs : HgChangesetId) (names : List String)
    (files : List HookFile) (execOf : String → HookFile → HookExecution)
    (n : String) (f : HookFile) :
    ((files.flatMap fun file => names.map fun n2 =>
        (FileHookExecutionID.mk cs n2 file, execOf n2 file)).countP
      fun v => fileHookIdEq v.1 (FileHookExecutionID.mk cs n f)) =
    (files.countP fun file =>
        file.path == f.path && file.changeset_id == f.changeset_id) *
      (names.countP fun n2 => n2 == n) := by
  induction files with
  | nil => simp
  | cons file t ih =>
    rw [List.flatMap_cons, List.countP_append, ih, List.countP_cons]
    have hmap : ((names.map fun n2 =>
        (FileHookExecutionID.mk cs n2 file, execOf n2 file)).countP
          fun v => fileHookIdEq v.1 (FileHookExecutionID.mk cs n f)) =
        names.countP fun n2 =>
          (n2 == n) && (file.path == f.path && file.changeset_id == f.changeset_id) := by
      rw [List.countP_map]
      apply List.countP_congr
      intro a _
      simp [fileHookIdEq, hookFileEq, Function.comp]
    rw [hmap]
    by_cases hc : (file.path == f.path && file.changeset_id == f.changeset_id) = true
    · have h1 : (names.countP fun n2 =>
          (n2 == n) && (file.path == f.path && file.changeset_id == f.changeset_id)) =
          names.countP fun n2 => n2 == n := by
        apply List.countP_congr
        intro a _
        rw [hc, Bool.and_true]
      rw [h1, if_pos hc]
      ring
    · have hcf : (file.path == f.path && file.changeset_id == f.changeset_id) = false :=
        Bool.not_eq_true _ |>.mp hc
      have h0 : (names.countP fun n2 =>
          (n2 == n) && (file.path == f.path && file.changeset_id == f.changeset_id)) = 0 := by
        apply List.countP_eq_zero.mpr
        intro a _
        rw [hcf, Bool.and_false]
        simp
      rw [h0, if_neg hc]
      ring

theorem countP_filekey_eq_one (l : List HookFile)
    (hnd : (l.map fun x => x.path).Nodup) (f : HookFile) (hf : f ∈ l) :
    (l.countP fun x => x.path == f.path && x.changeset_id == f.changeset_id) = 1 := by
  induction l with
  | nil => cases hf
  | cons a t ih =>
    rw [List.countP_cons]
    rw [List.map_cons] at hnd
    have hnd2 := List.nodup_cons.mp hnd
    rcases List.mem_cons.mp hf with rfl | hft
    · have hzero : (t.countP fun x =>
          x.path == f.path && x.changeset_id == f.changeset_id) = 0 := by
        apply List.countP_eq_zero.mpr
        intro x hx
        have hne : x.path ≠ f.path := by
          intro he
          exact hnd2.1 (he ▸ List.mem_map_of_mem (fun y => y.path) hx)
        simp [hne]
      simp [hzero]
    · have hne : a.path ≠ f.path := by
        intro he
        exact hnd2.1 (he ▸ List.mem_map_of_mem (fun y => y.path) hft)
      rw [ih hnd2.2 hft]
      simp [hne]

theorem countP_filekey_eq_zero (l : List HookFile) (f : HookFile)
    (h : ∀ x ∈ l, x.path ≠ f.path) :
    (l.countP fun x => x.path == f.path && x.changeset_id == f.changeset_id) = 0 := by
  apply List.countP_eq_zero.mpr
  intro x hx
  simp [h x hx]

/-! The claims. -/

/-- Claim C2 (counterexample): the weight of a concrete file cache key is
not the sum of the path, changeset-id and rule-name weights: the changeset
id is counted twice, once as the key field and once inside the embedded
file. -/
theorem cache_weight_claim_cex :
    fileHookExecutionIdWeight ⟨7, "b", ⟨"a", [], 7, .Added⟩⟩ ≠
      stringWeight "a" + changesetIdWeight + stringWeight "b" := by decide

/-- Claim C2 (amended): the weight of a file cache key is the path weight
plus the rule-name weight plus twice the changeset-id weight (the id enters
once through the cs id field and once through the embedded file); the
weight of a rejected verdict is a fixed overhead plus the weights of the
two description strings. -/
theorem cache_weight_formulas (k : FileHookExecutionID) (info : HookRejectionInfo) :
    fileHookExecutionIdWeight k =
      stringWeight k.file.path + changesetIdWeight + stringWeight k.hook_name +
        changesetIdWeight ∧
    hookExecutionWeight (.Rejected info) =
      (sizeOfHookExecution + sizeOfHookRejectionInfo) + stringWeight info.description +
        stringWeight info.long_description := by
  constructor
  · unfold fileHookExecutionIdWeight hookFileWeight
    ring
  · unfold hookExecutionWeight hookRejectionInfoWeight
    ring

/-- Claim C3: the bypass predicate is true for a commit-message bypass iff
the configured string occurs as a byte-exact substring of the commit
message, and for a push-variable bypass iff the push variables are present,
contain the name, and the bytes there decode as UTF-8 equal to the value;
non-UTF-8 bytes and an absent map each yield false (the predicate is total,
so never an error). -/
theorem is_hook_bypassed_iff_bypassSpec (bypass : HookBypass) (cs_msg : String)
    (maybe_pushvars : Option Pushvars) :
    is_hook_bypassed bypass cs_msg maybe_pushvars = true ↔
      bypassSpec bypass cs_msg maybe_pushvars := by
  cases bypass with
  | CommitMessage s =>
    simp [is_hook_bypassed, bypassSpec, strContainsSub]
  | Pushvar name value =>
    cases maybe_pushvars with
    | none => simp [is_hook_bypassed, bypassSpec]
    | some pv =>
      cases h : List.lookup name pv with
      | none => simp [is_hook_bypassed, bypassSpec, h]
      | some bytes =>
        cases hd : utf8Decode bytes with
        | none => simp [is_hook_bypassed, bypassSpec, h, hd]
        | some chars =>
          have hlhs : is_hook_bypassed (HookBypass.Pushvar name value) cs_msg (some pv) =
              (String.mk chars == value) := by
            simp [is_hook_bypassed, h, hd]
          rw [hlhs]
          unfold bypassSpec
          constructor
          · intro hbeq
            have hv : String.mk chars = value := eq_of_beq hbeq
            exact ⟨pv, bytes, rfl, h, by rw [hd, ← hv]⟩
          · rintro ⟨pv2, bytes2, h1, h2, h3⟩
            cases h1
            rw [h] at h2
            cases h2
            rw [hd] at h3
            have hchars : chars = value.data := by injection h3
            subst hchars
            exact beq_iff_eq.mpr rfl

/-- Claim C7: given a file execution-id key whose rule name is registered,
the cache filler builds the file-rule context from the key and the repo
name and invokes that rule body; when the name is absent the filler aborts
(the panic branch), which is unreachable once the name is known to be
registered since the two branches are decided by the same lookup. -/
theorem cache_filler_lookup_behaviour (repo_name : String)
    (file_hooks : List (String × (FileHookBody × HookConfig)))
    (key : FileHookExecutionID) :
    (∀ hook config, List.lookup key.hook_name file_hooks = some (hook, config) →
      hookCacheFill repo_name file_hooks key =
        hook (HookContext.mk key.hook_name repo_name config key.file)) ∧
    (List.lookup key.hook_name file_hooks = none →
      hookCacheFill repo_name file_hooks key =
        .error (.fillAbort key.hook_name)) := by
  constructor
  · intro hook config h
    unfold hookCacheFill
    rw [h]
  · intro h
    unfold hookCacheFill
    rw [h]

/-- Claim C7 witness: a registered key runs its body on the built context,
an unregistered key aborts. -/
theorem cache_filler_lookup_behaviour_witness :
    hookCacheFill "repo" mgr1.file_hooks ⟨7, "no-secrets", ⟨"a.txt", [], 7, .Added⟩⟩ =
      fileBodyAccept (HookContext.mk "no-secrets" "repo" cfgEmpty ⟨"a.txt", [], 7, .Added⟩) ∧
    hookCacheFill "repo" mgr1.file_hooks ⟨7, "ghost", ⟨"a.txt", [], 7, .Added⟩⟩ =
      .error (.fillAbort "ghost") :=
  ⟨(cache_filler_lookup_behaviour "repo" mgr1.file_hooks
      ⟨7, "no-secrets", ⟨"a.txt", [], 7, .Added⟩⟩).1 fileBodyAccept cfgEmpty rfl,
    (cache_filler_lookup_behaviour "repo" mgr1.file_hooks
      ⟨7, "ghost", ⟨"a.txt", [], 7, .Added⟩⟩).2 rfl⟩

/-- Claim C8: a bookmark with no binding entry makes both evaluation entry
points return the empty verdict list immediately; the manager and in
particular its two store functions are universally quantified and the
result is the same for every store, so no store access can influence or be
required for the outcome. -/
theorem no_bindings_returns_empty (mgr : HookManager) (cs : HgChangesetId)
    (bm : String) (maybe_pushvars : Option Pushvars)
    (h : List.lookup bm mgr.bookmark_hooks = none) :
    run_changeset_hooks_for_bookmark mgr cs bm maybe_pushvars = .ok [] ∧
    run_file_hooks_for_bookmark mgr cs bm maybe_pushvars = .ok [] := by
  constructor
  · unfold run_changeset_hooks_for_bookmark
    rw [h]
  · unfold run_file_hooks_for_bookmark
    rw [h]

/-- Claim C8 witness: an unbound bookmark on the fixture manager yields
empty results from both entry points. -/
theorem no_bindings_returns_empty_witness :
    List.lookup "unbound" mgr0.bookmark_hooks = none ∧
    run_changeset_hooks_for_bookmark mgr0 7 "unbound" none = .ok [] ∧
    run_file_hooks_for_bookmark mgr0 7 "unbound" none = .ok [] :=
  ⟨rfl, no_bindings_returns_empty mgr0 7 "unbound" none rfl⟩

/-- Claim C9: when the content store has no entry for a path at the
changeset, the changeset-context helper returns ok none while the
file-context helper fails with the NoFileContent error naming the
changeset and the path. -/
theorem file_content_absent_behaviour (hcs : HookChangeset) (path : String)
    (f : HookFile)
    (hpath : path.isEmpty = false)
    (habs : contentLookup hcs.content_store hcs.changeset_id path = none)
    (hfpath : f.path.isEmpty = false)
    (hfabs : contentLookup f.content_store f.changeset_id f.path = none) :
    hookChangesetFileContent hcs path = .ok none ∧
    hookFileContent f = .error (.NoFileContent f.changeset_id f.path) := by
  constructor
  · unfold hookChangesetFileContent mpathNew
    rw [hpath]
    simp [bindE_ok, habs]
  · unfold hookFileContent mpathNew
    rw [hfpath]
    simp [bindE_ok, hfabs]

/-- Claim C9 witness: an absent path on concrete data gives ok none from
the changeset helper and the NoFileContent error from the file helper. -/
theorem file_content_absent_behaviour_witness :
    hookChangesetFileContent hcs0 "x.txt" = .ok none ∧
    hookFileContent ⟨"y.txt", [], 7, .Added⟩ =
      .error (.NoFileContent 7 "y.txt") :=
  file_content_absent_behaviour hcs0 "x.txt" ⟨"y.txt", [], 7, .Added⟩
    rfl rfl rfl rfl

/-- Claim C10: two HookFile values are equal under the code equality
exactly when their path and changeset id agree, the hasher input streams
are equal under exactly the same condition, and in particular two entries
for the same path and changeset id with different change kinds and
different store handles are equal — the change kind and the store handle
never enter the identity. -/
theorem hookfile_eq_hash_ignore_kind (f g : HookFile) :
    (hookFileEq f g = true ↔ f.path = g.path ∧ f.changeset_id = g.changeset_id) ∧
    (hookFileHashStream f = hookFileHashStream g ↔
      f.path = g.path ∧ f.changeset_id = g.changeset_id) ∧
    ∀ (path : String) (store1 store2 : ContentStore) (cs : HgChangesetId)
      (ty1 ty2 : ChangedFileType),
      hookFileEq (HookFile.mk path store1 cs ty1) (HookFile.mk path store2 cs ty2) = true := by
  refine ⟨?_, ?_, ?_⟩
  · simp [hookFileEq]
  · simp [hookFileHashStream]
  · intro path store1 store2 cs ty1 ty2
    simp [hookFileEq]

/-- Claim C1 (counterexample): a bookmark bound to the registered name
exists and the unregistered name ghost does not make the bookmark entry
point fail: the evaluation succeeds and returns the verdict of the
registered hook, instead of failing with NoSuchRule ghost with no
verdicts. -/
theorem changeset_bookmark_unregistered_not_fatal_cex :
    run_changeset_hooks_for_bookmark mgr0 7 "main" none =
      .ok [(⟨7, "exists"⟩, .Accepted)] ∧
    run_changeset_hooks_for_bookmark mgr0 7 "main" none ≠
      .error (.NoSuchHook "ghost") := by
  constructor
  · rfl
  · rw [show run_changeset_hooks_for_bookmark mgr0 7 "main" none =
        .ok [(⟨7, "exists"⟩, .Accepted)] from rfl]
    simp

/-- Claim C1 (amended): the bookmark entry point silently filters the
binding list down to registered names before dispatch, so an unregistered
bound name is dropped rather than fatal; only the inner dispatch function,
handed a list containing an unregistered name directly, fails with
NoSuchRule for such a name and returns no verdicts at all. -/
theorem changeset_bookmark_unregistered_behaviour :
    (∀ (mgr : HookManager) (cs : HgChangesetId) (bm : String)
        (mp : Option Pushvars) (bound : List String),
      List.lookup bm mgr.bookmark_hooks = some bound →
      run_changeset_hooks_for_bookmark mgr cs bm mp =
        run_changeset_hooks_for_changeset_id mgr cs
          (bound.filter fun name => (List.lookup name mgr.changeset_hooks).isSome)
          mp) ∧
    (∀ (mgr : HookManager) (cs : HgChangesetId) (names : List String)
        (mp : Option Pushvars),
      (∃ n ∈ names, List.lookup n mgr.changeset_hooks = none) →
      ∃ m ∈ names, List.lookup m mgr.changeset_hooks = none ∧
        run_changeset_hooks_for_changeset_id mgr cs names mp =
          .error (.NoSuchHook m)) := by
  constructor
  · intro mgr cs bm mp bound hb
    exact run_changeset_bookmark_eq mgr cs bm mp bound hb
  · intro mgr cs names mp h
    obtain ⟨m, hm, hmnone, hmapm⟩ := resolveM_err mgr.changeset_hooks names h
    refine ⟨m, hm, hmnone, ?_⟩
    unfold run_changeset_hooks_for_changeset_id
    rw [hmapm, bindE_err]

/-- Claim C1 (amended) witness: on the fixture manager the bookmark entry
point equals dispatch of the filtered binding list, and the inner dispatch
of the unfiltered list fails with NoSuchRule. -/
theorem changeset_bookmark_unregistered_behaviour_witness :
    run_changeset_hooks_for_bookmark mgr0 7 "main" none =
      run_changeset_hooks_for_changeset_id mgr0 7
        (["exists", "ghost"].filter fun name =>
          (List.lookup name mgr0.changeset_hooks).isSome) none ∧
    ∃ m ∈ ["exists", "ghost"], List.lookup m mgr0.changeset_hooks = none ∧
      run_changeset_hooks_for_changeset_id mgr0 7 ["exists", "ghost"] none =
        .error (.NoSuchHook m) :=
  ⟨changeset_bookmark_unregistered_behaviour.1 mgr0 7 "main" none
      ["exists", "ghost"] rfl,
    changeset_bookmark_unregistered_behaviour.2 mgr0 7 ["exists", "ghost"] none
      ⟨"ghost", by simp, rfl⟩⟩

/-- Claim C6: when the stores deliver the changeset but its author or
comments bytes are not valid UTF-8, snapshot construction fails with the
decoding error on the offending field (author checked first), and both
evaluation entry points surface exactly that error — hence zero verdicts —
for every choice of registered hook bodies, so no rule body can have been
consulted. -/
theorem invalid_utf8_fails_evaluation
    (mgr : HookManager) (cs : HgChangesetId) (bm : String) (mp : Option Pushvars)
    (bound : List String) (blob : BlobChangeset)
    (cfl : List (String × ChangedFileType))
    (hb : List.lookup bm mgr.bookmark_hooks = some bound)
    (hget : mgr.get_changeset_by_changesetid cs = .ok blob)
    (hcf : mgr.get_changed_files cs = .ok cfl)
    (hbad : utf8Decode blob.user = none ∨ utf8Decode blob.comments = none) :
    ∃ field, (field = "author" ∨ field = "comments") ∧
      (utf8Decode blob.user = none → field = "author") ∧
      get_hook_changeset mgr cs = .error (.invalidUtf8 field) ∧
      run_changeset_hooks_for_bookmark mgr cs bm mp =
        .error (.invalidUtf8 field) ∧
      run_file_hooks_for_bookmark mgr cs bm mp =
        .error (.invalidUtf8 field) := by
  have main : ∀ field, get_hook_changeset mgr cs = .error (.invalidUtf8 field) →
      run_changeset_hooks_for_bookmark mgr cs bm mp =
        .error (.invalidUtf8 field) ∧
      run_file_hooks_for_bookmark mgr cs bm mp =
        .error (.invalidUtf8 field) := by
    intro field hghc
    constructor
    · rw [run_changeset_bookmark_eq mgr cs bm mp bound hb]
      unfold run_changeset_hooks_for_changeset_id
      rw [resolveM_filtered mgr.changeset_hooks bound, bindE_ok, hghc, bindE_err]
    · rw [run_file_bookmark_eq mgr cs bm mp bound hb]
      unfold run_file_hooks_for_changeset_id
      rw [hghc, bindE_err]
  cases ha : utf8Decode blob.user with
  | none =>
    have hghc : get_hook_changeset mgr cs = .error (.invalidUtf8 "author") := by
      unfold get_hook_changeset decodeField
      rw [hget, bindE_ok, hcf, bindE_ok]
      simp only [ha]
      rw [bindE_err]
    exact ⟨"author", Or.inl rfl, fun _ => rfl, hghc, (main "author" hghc).1,
      (main "author" hghc).2⟩
  | some chars =>
    have hc2 : utf8Decode blob.comments = none := by
      rcases hbad with h | h
      · rw [ha] at h; cases h
      · exact h
    have hghc : get_hook_changeset mgr cs = .error (.invalidUtf8 "comments") := by
      unfold get_hook_changeset decodeField
      rw [hget, bindE_ok, hcf, bindE_ok]
      simp only [ha, hc2]
      rw [bindE_ok, bindE_err]
    refine ⟨"comments", Or.inr rfl, ?_, hghc, (main "comments" hghc).1,
      (main "comments" hghc).2⟩
    intro h
    exact absurd h (by simp)

/-- Claim C6 witness: a changeset whose author bytes are the single invalid
byte 255 makes both entry points fail with the author decoding error. -/
theorem invalid_utf8_fails_evaluation_witness :
    List.lookup "main" mgr2.bookmark_hooks = some [] ∧
    mgr2.get_changeset_by_changesetid 9 = .ok blobBad ∧
    utf8Decode blobBad.user = none ∧
    ∃ field, (field = "author" ∨ field = "comments") ∧
      (utf8Decode blobBad.user = none → field = "author") ∧
      get_hook_changeset mgr2 9 = .error (.invalidUtf8 field) ∧
      run_changeset_hooks_for_bookmark mgr2 9 "main" none =
        .error (.invalidUtf8 field) ∧
      run_file_hooks_for_bookmark mgr2 9 "main" none =
        .error (.invalidUtf8 field) :=
  ⟨rfl, rfl, by decide,
    invalid_utf8_fails_evaluation mgr2 9 "main" none [] blobBad [] rfl rfl rfl
      (Or.inl (by decide))⟩

/-- Claim C5: under a bound bookmark, a successful snapshot and successful
bodies, the changeset entry point returns exactly the verdicts of the
surviving (bound, registered, non-bypassed) changeset rules, and for each
surviving rule exactly one verdict in the result carries the execution id
built from the changeset id and that rule name. -/
theorem changeset_hooks_one_verdict_each
    (mgr : HookManager) (cs : HgChangesetId) (bm : String) (mp : Option Pushvars)
    (bound : List String) (hcs : HookChangeset)
    (execOf : String → HookExecution)
    (hb : List.lookup bm mgr.bookmark_hooks = some bound)
    (hhcs : get_hook_changeset mgr cs = .ok hcs)
    (hnd : bound.Nodup)
    (hbody : ∀ x ∈ survivingChangesetHooks mgr bound hcs.comments mp,
      x.2.1 (HookContext.mk x.1 mgr.repo_name x.2.2 hcs) = .ok (execOf x.1)) :
    run_changeset_hooks_for_bookmark mgr cs bm mp =
      .ok ((survivingChangesetHooks mgr bound hcs.comments mp).map fun x =>
        (ChangesetHookExecutionID.mk cs x.1, execOf x.1)) ∧
    ∀ x ∈ survivingChangesetHooks mgr bound hcs.comments mp,
      (((survivingChangesetHooks mgr bound hcs.comments mp).map fun y =>
        (ChangesetHookExecutionID.mk cs y.1, execOf y.1)).countP
          fun v => v.1 == ChangesetHookExecutionID.mk cs x.1) = 1 := by
  constructor
  · rw [run_changeset_bookmark_eq mgr cs bm mp bound hb]
    unfold run_changeset_hooks_for_changeset_id
    rw [resolveM_filtered mgr.changeset_hooks bound, bindE_ok, hhcs, bindE_ok]
    have hfold : filter_bypassed_hooks
        (bound.filterMap fun name =>
          (List.lookup name mgr.changeset_hooks).map fun hook => (name, hook))
        hcs.comments mp = survivingChangesetHooks mgr bound hcs.comments mp := rfl
    rw [hfold]
    have hruncs : run_changeset_hooks_for_changeset mgr.repo_name hcs
        (survivingChangesetHooks mgr bound hcs.comments mp) =
        .ok ((survivingChangesetHooks mgr bound hcs.comments mp).map
          fun x => (x.1, execOf x.1)) := by
      unfold run_changeset_hooks_for_changeset
      apply mapM_ok_of_forall
      intro x hx
      unfold run_changeset_hook
      rw [hbody x hx]
    rw [hruncs, bindE_ok, List.map_map]
    rfl
  · intro x hx
    rw [List.countP_map]
    have hcong : ((survivingChangesetHooks mgr bound hcs.comments mp).countP
        ((fun v => v.1 == ChangesetHookExecutionID.mk cs x.1) ∘ fun y =>
          (ChangesetHookExecutionID.mk cs y.1, execOf y.1))) =
        ((survivingChangesetHooks mgr bound hcs.comments mp).countP
          ((fun a => a == x.1) ∘ fun y => y.1)) := by
      apply List.countP_congr
      intro y _
      simp only [Function.comp]
      simp [beq_iff_eq, ChangesetHookExecutionID.mk.injEq]
    rw [hcong, ← List.countP_map]
    have hsub : (((survivingChangesetHooks mgr bound hcs.comments mp).map
        fun y => y.1) : List String).Sublist bound :=
      (filter_bypassed_fst_sublist _ hcs.comments mp).trans
        (resolved_fst_sublist mgr.changeset_hooks bound)
    exact List.count_eq_one_of_mem (hnd.sublist hsub)
      (List.mem_map_of_mem (fun y => y.1) hx)

/-- Claim C5 witness: on the fixture manager the single registered bound
rule yields exactly its verdict once. -/
theorem changeset_hooks_one_verdict_each_witness :
    List.lookup "main" mgr0.bookmark_hooks = some ["exists", "ghost"] ∧
    (run_changeset_hooks_for_bookmark mgr0 7 "main" none =
      .ok ((survivingChangesetHooks mgr0 ["exists", "ghost"] hcs0.comments none).map
        fun x => (ChangesetHookExecutionID.mk 7 x.1, HookExecution.Accepted)) ∧
    ∀ x ∈ survivingChangesetHooks mgr0 ["exists", "ghost"] hcs0.comments none,
      (((survivingChangesetHooks mgr0 ["exists", "ghost"] hcs0.comments none).map
        fun y => (ChangesetHookExecutionID.mk 7 y.1, HookExecution.Accepted)).countP
          fun v => v.1 == ChangesetHookExecutionID.mk 7 x.1) = 1) :=
  ⟨rfl, changeset_hooks_one_verdict_each mgr0 7 "main" none ["exists", "ghost"]
    hcs0 (fun _ => HookExecution.Accepted) rfl rfl (by decide)
    (by
      intro x hx
      have hx2 : x ∈ [("exists", csBodyAccept, cfgEmpty)] := hx
      rw [List.mem_singleton] at hx2
      subst hx2
      rfl)⟩

theorem run_file_hooks_for_changeset_ok (mgr : HookManager)
    (cs : HgChangesetId) (hcs : HookChangeset) (names : List String)
    (execOf : String → HookFile → HookExecution)
    (hrun : ∀ n ∈ names, ∀ f ∈ hcs.files, f.ty ≠ ChangedFileType.Deleted →
      hookCacheFill mgr.repo_name mgr.file_hooks ⟨cs, n, f⟩ = .ok (execOf n f)) :
    run_file_hooks_for_changeset mgr cs hcs names =
      .ok (fileVerdictList cs names hcs.files execOf) := by
  unfold run_file_hooks_for_changeset fileVerdictList
  have inner : ∀ file ∈ hcs.files.filter fun file =>
      match file.ty with
      | ChangedFileType.Added | ChangedFileType.Modified => true
      | ChangedFileType.Deleted => false,
      run_file_hooks mgr cs file names =
        .ok (names.map fun n => (FileHookExecutionID.mk cs n file, execOf n file)) := by
    intro file hfile
    have hmem := List.mem_filter.mp hfile
    have hnotdel : file.ty ≠ ChangedFileType.Deleted := by
      intro hdel
      have hp := hmem.2
      rw [hdel] at hp
      cases hp
    unfold run_file_hooks
    apply mapM_ok_of_forall
    intro n hn
    unfold run_file_hook
    rw [hrun n hn file hmem.1 hnotdel]
  rw [mapM_ok_of_forall _ _ _ inner, List.flatMap_def]
  rfl

/-- Claim C4: under a bound bookmark, a successful snapshot and successful
cache fills for the dispatched keys — only non-deleted files are ever
dispatched, so nothing is assumed about fills on deleted files — the file
entry point skips every Deleted file (no verdict ever carries a Deleted
file) and returns exactly one verdict per pair of a surviving (bound,
registered, non-bypassed) file rule and a non-deleted file, stamped with
the execution id of the changeset, the rule name and that file. -/
theorem file_hooks_cross_product_verdicts
    (mgr : HookManager) (cs : HgChangesetId) (bm : String) (mp : Option Pushvars)
    (bound : List String) (hcs : HookChangeset)
    (execOf : String → HookFile → HookExecution)
    (hb : List.lookup bm mgr.bookmark_hooks = some bound)
    (hhcs : get_hook_changeset mgr cs = .ok hcs)
    (hnd : bound.Nodup)
    (hpaths : (hcs.files.map fun x => x.path).Nodup)
    (hrun : ∀ n ∈ survivingFileHookNames mgr bound hcs.comments mp,
      ∀ f ∈ hcs.files, f.ty ≠ ChangedFileType.Deleted →
        hookCacheFill mgr.repo_name mgr.file_hooks ⟨cs, n, f⟩ =
          .ok (execOf n f)) :
    run_file_hooks_for_bookmark mgr cs bm mp =
      .ok (fileVerdictList cs (survivingFileHookNames mgr bound hcs.comments mp)
        hcs.files execOf) ∧
    (∀ v ∈ fileVerdictList cs (survivingFileHookNames mgr bound hcs.comments mp)
        hcs.files execOf, v.1.file.ty ≠ ChangedFileType.Deleted) ∧
    (∀ n ∈ survivingFileHookNames mgr bound hcs.comments mp,
      ∀ f ∈ hcs.files, f.ty ≠ ChangedFileType.Deleted →
        ((fileVerdictList cs (survivingFileHookNames mgr bound hcs.comments mp)
          hcs.files execOf).countP
            fun v => fileHookIdEq v.1 (FileHookExecutionID.mk cs n f)) = 1) ∧
    (∀ f ∈ hcs.files, f.ty = ChangedFileType.Deleted → ∀ n,
      ((fileVerdictList cs (survivingFileHookNames mgr bound hcs.comments mp)
        hcs.files execOf).countP
          fun v => fileHookIdEq v.1 (FileHookExecutionID.mk cs n f)) = 0) := by
  have hpick : ∀ f : HookFile, f.ty ≠ ChangedFileType.Deleted →
      (match f.ty with
        | ChangedFileType.Added | ChangedFileType.Modified => true
        | ChangedFileType.Deleted => false) = true := by
    intro f hf
    cases hty : f.ty with
    | Added => rfl
    | Modified => rfl
    | Deleted => exact absurd hty hf
  have hpickedpaths : (((hcs.files.filter fun file =>
      match file.ty with
      | ChangedFileType.Added | ChangedFileType.Modified => true
      | ChangedFileType.Deleted => false).map fun x => x.path) :
        List String).Nodup :=
    hpaths.sublist ((List.filter_sublist hcs.files).map fun x => x.path)
  have hnamesnd : (survivingFileHookNames mgr bound hcs.comments mp).Nodup := by
    apply hnd.sublist
    exact (filter_bypassed_fst_sublist _ hcs.comments mp).trans
      (resolved_fst_sublist mgr.file_hooks bound)
  refine ⟨?_, ?_, ?_, ?_⟩
  · rw [run_file_bookmark_eq mgr cs bm mp bound hb]
    unfold run_file_hooks_for_changeset_id
    rw [hhcs, bindE_ok]
    exact run_file_hooks_for_changeset_ok mgr cs hcs _ execOf hrun
  · intro v hv
    unfold fileVerdictList at hv
    obtain ⟨file, hfile, hv2⟩ := List.mem_flatMap.mp hv
    obtain ⟨n, _, hveq⟩ := List.mem_map.mp hv2
    have hty := (List.mem_filter.mp hfile).2
    rw [← hveq]
    intro hdel
    rw [show (FileHookExecutionID.mk cs n file, execOf n file).1.file = file
      from rfl] at hdel
    rw [hdel] at hty
    cases hty
  · intro n hn f hf hdel
    unfold fileVerdictList
    rw [countP_cross]
    have h1 : ((hcs.files.filter fun file =>
        match file.ty with
        | ChangedFileType.Added | ChangedFileType.Modified => true
        | ChangedFileType.Deleted => false).countP fun file =>
          file.path == f.path && file.changeset_id == f.changeset_id) = 1 :=
      countP_filekey_eq_one _ hpickedpaths f
        (List.mem_filter.mpr ⟨hf, hpick f hdel⟩)
    have h2 : ((survivingFileHookNames mgr bound hcs.comments mp).countP
        fun n2 => n2 == n) = 1 :=
      List.count_eq_one_of_mem hnamesnd hn
    rw [h1, h2]
  · intro f hf hdel n
    unfold fileVerdictList
    rw [countP_cross]
    have h0 : ((hcs.files.filter fun file =>
        match file.ty with
        | ChangedFileType.Added | ChangedFileType.Modified => true
        | ChangedFileType.Deleted => false).countP fun file =>
          file.path == f.path && file.changeset_id == f.changeset_id) = 0 := by
      apply countP_filekey_eq_zero
      intro x hx hxpath
      have hmem := List.mem_filter.mp hx
      have hxf : x = f := List.inj_on_of_nodup_map hpaths hmem.1 hf hxpath
      have hxty := hmem.2
      rw [hxf, hdel] at hxty
      cases hxty
    rw [h0]
    ring

/-- Claim C4 witness: the fixture changeset with an added, a modified and a
deleted file under one bound registered rule yields exactly one verdict per
non-deleted file and none for the deleted file. -/
theorem file_hooks_cross_product_verdicts_witness :
    List.lookup "main" mgr1.bookmark_hooks = some ["no-secrets"] ∧
    get_hook_changeset mgr1 7 = .ok hcs1 ∧
    (run_file_hooks_for_bookmark mgr1 7 "main" none =
      .ok (fileVerdictList 7 (survivingFileHookNames mgr1 ["no-secrets"]
        hcs1.comments none) hcs1.files fun _ _ => HookExecution.Accepted) ∧
    (∀ v ∈ fileVerdictList 7 (survivingFileHookNames mgr1 ["no-secrets"]
        hcs1.comments none) hcs1.files fun _ _ => HookExecution.Accepted,
      v.1.file.ty ≠ ChangedFileType.Deleted) ∧
    (∀ n ∈ survivingFileHookNames mgr1 ["no-secrets"] hcs1.comments none,
      ∀ f ∈ hcs1.files, f.ty ≠ ChangedFileType.Deleted →
        ((fileVerdictList 7 (survivingFileHookNames mgr1 ["no-secrets"]
          hcs1.comments none) hcs1.files fun _ _ => HookExecution.Accepted).countP
            fun v => fileHookIdEq v.1 (FileHookExecutionID.mk 7 n f)) = 1) ∧
    (∀ f ∈ hcs1.files, f.ty = ChangedFileType.Deleted → ∀ n,
      ((fileVerdictList 7 (survivingFileHookNames mgr1 ["no-secrets"]
        hcs1.comments none) hcs1.files fun _ _ => HookExecution.Accepted).countP
          fun v => fileHookIdEq v.1 (FileHookExecutionID.mk 7 n f)) = 0)) :=
  ⟨rfl, rfl,
    file_hooks_cross_product_verdicts mgr1 7 "main" none ["no-secrets"] hcs1
      (fun _ _ => HookExecution.Accepted) rfl rfl (by decide) (by decide)
      (by
        intro n hn f _ _
        have hn2 : n ∈ ["no-secrets"] := hn
        rw [List.mem_singleton] at hn2
        subst hn2
        rfl)⟩

end Hooks
